import Mathlib

/-!
Verification model of the poet build descriptor synthesizer
(`poet/build/builder.py`).

Paths and patterns are modelled relative to the project root.  A path on
disk is a nonempty list of path segments; the filesystem is the list of
regular-file paths (directories are exactly the proper prefixes of file
paths).  Python strings are modelled as `List Char`, so the string
operations used by the source (`replace`, `endswith`, `split`, substring
test) are translated as structural functions on character lists.

A leading slash in a manifest glob pattern denotes the project root and is
stripped where the source hands the string to the filesystem layer (the
source itself strips a leading slash from expanded exclude paths, and the
spec scenarios read patterns this way).
-/

namespace Poet

/-- Python strings, modelled as lists of characters. -/
abbrev Str := List Char

/-- Embed a Lean string literal as a modelled Python string. -/
def str (s : String) : Str := s.data

/-- A filesystem path, as a list of path segments (root-relative). -/
abbrev Path := List Str

/-- The project tree: the list of regular-file paths under the root. -/
structure FS where
  files : List Path
deriving DecidableEq

/-- Python `s.split(sep)` for a single-character separator: splits into
(possibly empty) segments, never returning an empty list. -/
def splitOnChar (sep : Char) : Str → List Str
  | [] => [[]]
  | c :: t =>
    match splitOnChar sep t with
    | [] => [[c]]
    | h :: r => if c = sep then [] :: h :: r else (c :: h) :: r

/-- Split a path string into its slash-separated segments. -/
def splitSlash : Str → List Str := splitOnChar '/'

/-- Join segments with a separator character (inverse of splitting). -/
def joinWith (sep : Char) : List Str → Str
  | [] => []
  | [s] => s
  | s :: rest => s ++ sep :: joinWith sep rest

/-- Render a path as the string the source manipulates (segments joined
with slashes). -/
def render (p : Path) : Str := joinWith '/' p

/-- Python `s.replace(old, new)` for single characters: replace every
occurrence. -/
def replaceChar (a b : Char) (s : Str) : Str :=
  s.map fun c => if c = a then b else c

/-- Fuel-driven core of Python `s.replace(old, new)`: scan left to right,
replacing non-overlapping occurrences. -/
def replaceAux (pat rep : Str) : Nat → Str → Str
  | 0, s => s
  | _ + 1, [] => []
  | f + 1, c :: t =>
    if pat.isPrefixOf (c :: t) then
      rep ++ replaceAux pat rep f (t.drop (pat.length - 1))
    else
      c :: replaceAux pat rep f t

/-- Python `s.replace(old, new)` for general strings. -/
def replaceStr (pat rep s : Str) : Str := replaceAux pat rep s.length s

/-- Python `needle in hay` substring test. -/
def containsSub (needle hay : Str) : Bool :=
  hay.tails.any fun t => needle.isPrefixOf t

/-- The suffix-stripped, dot-separated name of an expanded path string:
`s.replace(".py", "").replace("/", ".")` (builder.py line 222 and 264). -/
def pyToDotted (s : Str) : Str := replaceChar '/' '.' (replaceStr (str ".py") [] s)

/-- The dotted name of a directory: `dir.replace("/", ".")`
(builder.py line 236 and 278). -/
def dotName (p : Path) : Str := replaceChar '/' '.' (render p)

/-- Strip one leading slash (builder.py line 218-219; also how the model
interprets a root-anchored pattern). -/
def stripSlash : Str → Str
  | '/' :: t => t
  | s => s

/-- `fnmatch`-style match of one glob segment against one path segment:
`*` matches any run of characters, `?` any one character, anything else
itself. -/
def matchSeg : Str → Str → Bool
  | [], s => s.isEmpty
  | c :: ps, s =>
    if c = '*' then s.tails.any fun t => matchSeg ps t
    else
      match s with
      | [] => false
      | d :: t => (c = '?' || c = d) && matchSeg ps t

/-- Glob's hidden-file rule: a wildcard segment does not match a segment
starting with a dot. -/
def segMatch (p s : Str) : Bool :=
  if s.head? = some '.' && !(p.head? = some '.') then false else matchSeg p s

/-- The suffixes of a segment list reachable by letting `**` consume zero
or more leading (non-hidden) segments. -/
def ssTails : List Str → List (List Str)
  | [] => [[]]
  | h :: t => (h :: t) :: (if h.head? = some '.' then [] else ssTails t)

/-- Match a glob pattern (as segments) against a path (as segments), with
`**` matching zero or more segments (`glob.glob(..., recursive=True)`). -/
def matchSegs : List Str → List Str → Bool
  | [], segs => segs.isEmpty
  | p :: ps, segs =>
    if p = str "**" then (ssTails segs).any fun t => matchSegs ps t
    else
      match segs with
      | [] => false
      | s :: t => segMatch p s && matchSegs ps t

/-- The nonempty prefixes of a path (every path and containing directory a
file gives rise to). -/
def nonNilHeads : Path → List Path
  | [] => []
  | c :: t => [c] :: (nonNilHeads t).map (c :: ·)

/-- Remove duplicates, keeping first occurrences (`seen` accumulator). -/
def dedupAux : List Path → List Path → List Path
  | [], _ => []
  | p :: t, seen =>
    if seen.contains p then dedupAux t seen else dedupAux t (p :: seen) |>.cons p

/-- Every existing path of the tree (files and directories), in a canonical
enumeration order derived from the file list. -/
def allPaths (fs : FS) : List Path :=
  dedupAux (fs.files.flatMap nonNilHeads) []

/-- `os.path.isdir`: the path is a proper prefix of some file path. -/
def isDir (fs : FS) (p : Path) : Bool :=
  fs.files.any fun f => p ≠ f && p.isPrefixOf f

/-- `os.path.exists` on a file path. -/
def isFile (fs : FS) (p : Path) : Bool := fs.files.contains p

/-- Parse a glob pattern into segments (a leading slash denotes the
project root). -/
def globPat (pat : Str) : List Str := splitSlash (stripSlash pat)

/-- `glob.glob(pattern, recursive=True)`: every existing path matching the
pattern. -/
def glob (fs : FS) (pat : Str) : List Path :=
  (allPaths fs).filter fun p => matchSegs (globPat pat) p

/-- `os.path.basename` on a path (its last segment). -/
def basename (p : Path) : Str := p.getLastD []

/-- All ways of writing `s = a ++ m ++ b`, in order of increasing `a`. -/
def splitsOn (m : Str) : Str → List (Str × Str)
  | [] => []
  | c :: t =>
    (if m.isPrefixOf (c :: t) then [(([] : Str), (c :: t).drop m.length)] else [])
      ++ (splitsOn m t).map fun ab => (c :: ab.1, ab.2)

/-- The optional group of the source's pattern-shape regex by itself: a
dot followed by at least one non-newline character, or nothing at all
(builder.py line 229). -/
def suffixCore (b : Str) : Bool :=
  b.isEmpty || (b.head? = some '.' && !b.tail.isEmpty && b.tail.all fun c => c ≠ '\n')

/-- Whether `b` can follow the recursive-wildcard tail in a match of the
source's pattern-shape regex: the optional dot suffix, possibly followed
by one final newline, because the regex's end anchor (outside multiline
mode) also matches just before a single trailing newline. -/
def suffixOKb (b : Str) : Bool :=
  suffixCore b || (b.getLast? = some '\n' && suffixCore b.dropLast)

/-- The decompositions of a pattern accepted by the shape regex of
builder.py line 229: a nonempty newline-free stem, the literal
recursive-wildcard tail, and an optional dot suffix (up to one trailing
newline tolerated by the end anchor). -/
def validSplits (p : Str) : List (Str × Str) :=
  (splitsOn (str "/**/*") p).filter fun ab =>
    !ab.1.isEmpty && (ab.1.all fun c => c ≠ '\n') && suffixOKb ab.2

/-- The group the source's shape regex captures: the longest stem (greedy
match) among the accepted decompositions; `none` when the pattern is not
of the shape (builder.py line 229-233). -/
def rootOfPattern (p : Str) : Option Str :=
  (validSplits p).getLast?.map fun ab => ab.1

/-- The crawler's internal mutable state: the four accumulator lists of
`Builder._packages` together with the `self._manifest` instance field. -/
structure St where
  packages : List Str
  modules : List Str
  crawled : List Path
  manifest : List Str
deriving DecidableEq

/-- Step 1 of the crawl (builder.py line 216-222): expand every
exclude/ignore glob, strip a leading slash, and keep the dotted name of
every expanded path ending in `.py`. -/
def buildExcluded (fs : FS) (pats : List Str) : List Str :=
  pats.flatMap fun pat =>
    (glob fs pat).filterMap fun p =>
      let exc := stripSlash (render p)
      if (str ".py").isSuffixOf exc then some (pyToDotted exc) else none

/-- Processing of one matched directory (builder.py line 235-257): skip if
already crawled; if it holds the package-marker file, list its child
source files, drop the ones whose name is in the excluded set, and record
either the whole directory as a package (nothing dropped) or each
surviving child as a module; mark the directory (and, in the marker case,
its children) crawled. -/
def stepDir (fs : FS) (excluded : List Str) (st : St) (dir : Path) : St :=
  if st.crawled.contains dir then st
  else if isFile fs (dir ++ [str "__init__.py"]) then
    let children := glob fs (render dir ++ str "/*.py")
    let filtered := children.filter fun c => !excluded.contains (render c)
    let st' :=
      if children = filtered then
        { st with packages := st.packages ++ [dotName dir] }
      else
        { st with modules := st.modules ++ filtered.map fun c => replaceChar '/' '.' (render c) }
    { st' with crawled := st'.crawled ++ children ++ [dir] }
  else
    { st with crawled := st.crawled ++ [dir] }

/-- Processing of one matched non-directory (builder.py line 259-282):
source files become modules, other files (outside build caches) become
data-file directives, and a directly-matched marker file with no sibling
source files makes its directory a package. -/
def stepOther (fs : FS) (st : St) (el : Path) : St :=
  if st.crawled.contains el then st
  else
    let r := render el
    let st' :=
      if (str ".py").isSuffixOf r && !(basename el = str "__init__.py") then
        { st with modules := st.modules ++ [pyToDotted r] }
      else if !(basename el = str "__init__.py") && !containsSub (str "__pycache__") r then
        { st with manifest := st.manifest ++ [str "include " ++ r] }
      else if basename el = str "__init__.py" then
        let dir := el.dropLast
        let children := (glob fs (render dir ++ str "/*.py")).filter fun c =>
          !(basename c = str "__init__.py")
        if children = [] && !st.crawled.contains dir then
          { st with packages := st.packages ++ [dotName dir],
                    crawled := st.crawled ++ [dir] }
        else st
      else st
    { st' with crawled := st'.crawled ++ [el] }

/-- The directories processed for one include pattern: the matched
directories, preceded by the pattern's stem when the pattern has the
recursive-wildcard shape (builder.py line 226-233). -/
def dirsForPattern (fs : FS) (inc : Str) : List Path :=
  let dirs := (glob fs inc).filter fun d => isDir fs d
  match rootOfPattern inc with
  | some a => splitSlash (stripSlash a) :: dirs
  | none => dirs

/-- Step 2 of the crawl for one include pattern (builder.py line 224-282):
expand, partition into directories and others, and process each in order. -/
def processPattern (fs : FS) (excluded : List Str) (st : St) (inc : Str) : St :=
  let others := (glob fs inc).filter fun e => !isDir fs e
  let st1 := (dirsForPattern fs inc).foldl (stepDir fs excluded) st
  others.foldl (stepOther fs) st1

/-- The crawl result: the `packages` and `py_modules` entries of the setup
keyword dictionary, plus the data-file directive list accumulated on the
builder. -/
structure CrawlResult where
  packages : List Str
  modules : List Str
  manifest : List Str
deriving DecidableEq

/-- `Builder._packages` (builder.py line 209-290): build the excluded-name
set, process every include pattern, and finally filter packages and
modules against the excluded names.  `manifest0` is the content of the
`self._manifest` instance field when the call starts. -/
def crawl (fs : FS) (includes excludes ignores : List Str) (manifest0 : List Str) :
    CrawlResult :=
  let excluded := buildExcluded fs (excludes ++ ignores)
  let st := includes.foldl (processPattern fs excluded)
    { packages := [], modules := [], crawled := [], manifest := manifest0 }
  { packages := st.packages.filter fun p => !excluded.contains p,
    modules := st.modules.filter fun m => !excluded.contains m,
    manifest := st.manifest }

/-! ### Version classifier (`Builder._classifiers_versions`) -/

/-- A semantic-version triple (major, minor, patch). -/
abbrev SemVer := Nat × Nat × Nat

/-- The comparison operators of a range-constraint clause. -/
inductive COp | ge | gt | le | lt | eqv
deriving DecidableEq

/-- One clause of a range constraint, such as greater-or-equal 3.5.0. -/
structure Clause where
  op : COp
  ver : SemVer
deriving DecidableEq

/-- A parsed version-range constraint (external collaborator
`semantic_version.Spec`): the conjunction of its clauses. -/
abbrev VSpec := List Clause

/-- Lexicographic strict order on version triples. -/
def verLT (a b : SemVer) : Bool :=
  a.1 < b.1 || (a.1 = b.1 && (a.2.1 < b.2.1 || (a.2.1 = b.2.1 && a.2.2 < b.2.2)))

/-- Membership of one version in one clause. -/
def clauseHolds (v : SemVer) (c : Clause) : Bool :=
  match c.op with
  | .ge => !verLT v c.ver
  | .gt => verLT c.ver v
  | .le => !verLT c.ver v
  | .lt => verLT v c.ver
  | .eqv => v = c.ver

/-- `Version.coerce(version) in constraint`: the version satisfies every
clause of the range. -/
def specContains (s : VSpec) (v : SemVer) : Bool := s.all (clauseHolds v)

/-- Digits-only string-to-number reading, for catalog entries. -/
def digitsToNat (s : Str) : Nat :=
  s.foldl (fun n c => n * 10 + (c.toNat - '0'.toNat)) 0

/-- `semantic_version.Version.coerce` on a catalog entry: pad a
major.minor string to a full triple. -/
def coerce (v : Str) : SemVer :=
  match (splitOnChar '.' v).map digitsToNat with
  | [] => (0, 0, 0)
  | [a] => (a, 0, 0)
  | [a, b] => (a, b, 0)
  | a :: b :: c :: _ => (a, b, c)

/-- `Builder.PYTHON_VERSIONS` (builder.py line 59-62): the catalog of
known minor releases per major line. -/
def PYTHON_VERSIONS : Nat → List Str
  | 2 => [str "2.6", str "2.7"]
  | 3 => [str "3.0", str "3.1", str "3.2", str "3.3", str "3.4", str "3.5", str "3.6"]
  | _ => []

/-- The list collected under one major key of `compatible_versions`: for
each declared constraint in order, the catalog minors of this major line
that the constraint admits (builder.py line 166-177). -/
def compatibleVersions (pythons : List VSpec) (major : Nat) : List Str :=
  (pythons.map fun c => (PYTHON_VERSIONS major).filter fun v =>
    specContains c (coerce v)).flatten

/-- Decimal rendering of a major-line number. -/
def natStr (n : Nat) : Str := (Nat.repr n).data

/-- `Builder._classifiers_versions` (builder.py line 162-188): the generic
language tag, then, for each major line with any match in ascending
order, the major tag followed by the matching minors in collection
order. -/
def classifiersVersions (pythons : List VSpec) : List Str :=
  str "Programming Language :: Python" ::
    (([2, 3].filter fun m => !(compatibleVersions pythons m).isEmpty).flatMap fun m =>
      (str "Programming Language :: Python :: " ++ natStr m) ::
        (compatibleVersions pythons m).map fun v =>
          str "Programming Language :: Python :: " ++ v)

/-! ### Author parsing (`Builder._author`) -/

/-- The character class of the name group of `Builder.AUTHOR_REGEX`
(builder.py line 57): hyphen, space, dot, comma, word characters, digits,
quotes and parentheses.  The unicode word class is modelled over its
ASCII portion, which covers the claims' inputs. -/
def authorNameChar (c : Char) : Bool :=
  c = '-' || c = ' ' || c = '.' || c = ',' || c.isAlpha || c.isDigit || c = '_'
    || c = '\'' || c = '’' || c = '"' || c = '(' || c = ')'

/-- Anchored match of `AUTHOR_REGEX` against an author string: a nonempty
name of class characters, a space, an angle-bracketed nonempty email
running to the final closing bracket at the end of the string.  Returns
the name and email groups on success. -/
def authorMatch (s : Str) : Option (Str × Str) :=
  match (splitsOn [ '<'] s).head? with
  | none => none
  | some (before, post) =>
    let name := before.dropLast
    let email := post.dropLast
    if before.getLast? = some ' ' && !name.isEmpty && name.all authorNameChar
        && post.getLast? = some '>' && !email.isEmpty
        && (email.all fun c => c ≠ '\n') then
      some (name, email)
    else none

/-- `Builder._author` (builder.py line 141-147): match the primary author
string; the name and email groups populate the descriptor, and a
non-matching string makes the call fail (`m` is not a match object). -/
def authorOf (authors : List Str) : Option (Str × Str) :=
  match authors with
  | [] => none
  | a :: _ => authorMatch a

/-! ### Build orchestration (`Builder.build`) -/

/-- Failures observable from one build call: the source-archive
invocation raising, or an unlink during cleanup raising. -/
inductive BuildErr | sdistFailed | cleanupFailed
deriving DecidableEq

/-- The world a build call manipulates: the files present at the project
root, whether the readme is markdown, the outcome of the external
source-archive tool, and whether the binary-archive step has run. -/
structure BuildWorld where
  files : List Str
  hasMarkdownReadme : Bool
  sdistOk : Bool
  wheelRun : Bool
deriving DecidableEq

/-- Writing a file: it is present afterwards (`open(dest, "w")`
overwrites). -/
def writeFile (n : Str) (files : List Str) : List Str :=
  if files.contains n then files else n :: files

/-- `os.unlink`: removes the file, failing when it is absent. -/
def unlinkF (n : Str) (files : List Str) : Option (List Str) :=
  if files.contains n then some (files.erase n) else none

def setupName : Str := str "setup.py"
def manifestName : Str := str "MANIFEST.in"
def readmeName : Str := str "README.rst"

/-- The `finally` block of builder.py line 94-99: unlink the generated
setup input and manifest, and the converted readme when one was created;
a failing unlink aborts the rest of the cleanup. -/
def cleanupStep (readmeCreated : Bool) (files : List Str) :
    Option BuildErr × List Str :=
  match unlinkF setupName files with
  | none => (some .cleanupFailed, files)
  | some f1 =>
    match unlinkF manifestName f1 with
    | none => (some .cleanupFailed, f1)
    | some f2 =>
      if readmeCreated then
        match unlinkF readmeName f2 with
        | none => (some .cleanupFailed, f2)
        | some f3 => (none, f3)
      else (none, f2)

/-- `Builder.build` (builder.py line 67-108): materialize the setup input
and data-file manifest (and a converted readme for a markdown project
when none is on disk), run the source-archive build inside a
try/finally whose finally removes the transient files, and run the
binary-archive build only when everything before succeeded.  An
exception from the cleanup replaces the in-flight exception, as in the
source's `finally`. -/
def build (w : BuildWorld) : Option BuildErr × BuildWorld :=
  let f1 := writeFile manifestName (writeFile setupName w.files)
  let readmeCreated := w.hasMarkdownReadme && !f1.contains readmeName
  let f2 := if readmeCreated then writeFile readmeName f1 else f1
  let sdistErr : Option BuildErr := if w.sdistOk then none else some .sdistFailed
  match cleanupStep readmeCreated f2 with
  | (some ce, f3) => (some ce, { w with files := f3 })
  | (none, f3) =>
    match sdistErr with
    | some e => (some e, { w with files := f3 })
    | none => (none, { w with files := f3, wheelRun := true })

/-! ### Concrete fixtures used by the claims -/

/-- The spec's scenario tree: `src/pkg/__init__.py`, `src/pkg/a.py`,
`src/pkg/b.py`. -/
def fsPkg : FS := ⟨[[str "src", str "pkg", str "__init__.py"],
                    [str "src", str "pkg", str "a.py"],
                    [str "src", str "pkg", str "b.py"]]⟩

/-- A tree with one data file, `src/data.txt`. -/
def fsData : FS := ⟨[[str "src", str "data.txt"]]⟩

/-- The constraint string `">=3.5,<4.0"` as parsed by the external
range-constraint library. -/
def spec35to40 : VSpec := [⟨.ge, (3, 5, 0)⟩, ⟨.lt, (4, 0, 0)⟩]

/-- The constraint string `">=3.6,<4.0"` as parsed by the external
range-constraint library. -/
def spec36to40 : VSpec := [⟨.ge, (3, 6, 0)⟩, ⟨.lt, (4, 0, 0)⟩]

/-! ### Predicates used to state the universal claims -/

/-- A crawl state whose manifest accumulator carries `m0` residual
entries in front (the builder's instance field before the call). -/
def shiftManifest (m0 : List Str) (st : St) : St :=
  { st with manifest := m0 ++ st.manifest }

/-- The optional suffix group as the claim states it: empty, or a dot
followed by at least one non-newline character (no trailing newline). -/
def SuffixShape (b : Str) : Prop :=
  b = [] ∨ ∃ t, b = '.' :: t ∧ t ≠ [] ∧ ∀ c ∈ t, c ≠ '\n'

/-- The claimed pattern shape, with `a` the stem: the pattern is the stem
(nonempty, newline-free), the literal recursive-wildcard tail, and an
optional dot suffix. -/
def PatShape (p a b : Str) : Prop :=
  p = a ++ str "/**/*" ++ b ∧ a ≠ [] ∧ (∀ c ∈ a, c ≠ '\n') ∧ SuffixShape b

/-- The suffixes the line-229 regex actually accepts after the wildcard
tail: the claimed optional dot suffix, possibly followed by one trailing
newline (which the end anchor matches just before). -/
def SuffixShapeRe (b : Str) : Prop :=
  SuffixShape b ∨ ∃ b', b = b' ++ ['\n'] ∧ SuffixShape b'

/-- The shape the line-229 regex recognizes, with `a` the captured stem:
the claimed shape up to one trailing newline tolerated by the end
anchor. -/
def PatShapeRe (p a b : Str) : Prop :=
  p = a ++ str "/**/*" ++ b ∧ a ≠ [] ∧ (∀ c ∈ a, c ≠ '\n') ∧ SuffixShapeRe b

/-! ## Theorems -/

/-- C1: crawling the tree `src/pkg/__init__.py`, `src/pkg/a.py`,
`src/pkg/b.py` with include `"/src/**/*.py"` and exclude
`"/src/pkg/b.py"` records no package and exactly the module
`"src.pkg.a"` (suffix stripped, separators dotted); the marker file is
not listed as a module. -/
theorem C1_partial_exclusion :
    crawl fsPkg [str "/src/**/*.py"] [str "/src/pkg/b.py"] [] [] =
      ⟨[], [str "src.pkg.a"], []⟩ := by decide

/-- C2 counterexample: on the same tree with empty exclude, the crawler
does not produce packages `{"src.pkg"}` with empty modules. -/
theorem C2_counterexample :
    ¬ ((crawl fsPkg [str "/src/**/*.py"] [] [] []).packages = [str "src.pkg"] ∧
       (crawl fsPkg [str "/src/**/*.py"] [] [] []).modules = []) := by decide

/-- C2 amended: with include `"/src/**/*.py"` and empty exclude on the
tree `src/pkg/__init__.py`, `src/pkg/a.py`, `src/pkg/b.py`, the glob
matches only `.py`-suffixed paths, so the directory `src/pkg` is reached
only through its directly matched marker file; since sibling source files
exist no package is recorded, and the result is packages = empty,
modules = `src.pkg.a` and `src.pkg.b`.  (The originally claimed output
arises for the suffix-free include `"/src/**/*"`, whose glob matches the
directory itself.) -/
theorem C2_amended :
    crawl fsPkg [str "/src/**/*.py"] [] [] [] =
        ⟨[], [str "src.pkg.a", str "src.pkg.b"], []⟩ ∧
      crawl fsPkg [str "/src/**/*"] [] [] [] = ⟨[str "src.pkg"], [], []⟩ := by decide

/-- C4: for the single constraint `">=3.5,<4.0"` against the fixed
catalog, the classifier returns exactly the generic language tag, the
major tag for 3, and the minor tags 3.5 and 3.6, in that order. -/
theorem C4_version_tags :
    classifiersVersions [spec35to40] =
      [str "Programming Language :: Python",
       str "Programming Language :: Python :: 3",
       str "Programming Language :: Python :: 3.5",
       str "Programming Language :: Python :: 3.6"] := by decide

/-- C5 counterexample: with the two overlapping constraints
`">=3.5,<4.0"` and `">=3.6,<4.0"`, the minor tag for 3.6 appears twice in
the classifier output. -/
theorem C5_counterexample :
    (classifiersVersions [spec35to40, spec36to40]).count
      (str "Programming Language :: Python :: 3.6") = 2 := by decide

/-- C6: the author string `"Jane Doe <jane@example.com>"` parses to
name `"Jane Doe"` and email `"jane@example.com"`, and `"not-an-email"`
does not match the author regex, so the author step fails (the failure
the spec names AuthorFormatError). -/
theorem C6_author_parsing :
    authorOf [str "Jane Doe <jane@example.com>"] =
        some (str "Jane Doe", str "jane@example.com") ∧
      authorOf [str "not-an-email"] = none := by decide

/-- C7 counterexample: on a tree with one data file, running the crawler
a second time on the same builder (whose manifest accumulator still holds
the first run's directives) does not reproduce the first run's data-file
directive list: the directive is appended again. -/
theorem C7_counterexample :
    (crawl fsData [str "/src/**/*"] [] []
        (crawl fsData [str "/src/**/*"] [] [] []).manifest).manifest ≠
      (crawl fsData [str "/src/**/*"] [] [] []).manifest := by decide

/-! ### Fold helpers -/

theorem foldl_hom {α β : Type} (f : β → α → β) (σ : β → β)
    (h : ∀ st x, f (σ st) x = σ (f st x)) :
    ∀ (l : List α) (st : β), l.foldl f (σ st) = σ (l.foldl f st) := by
  intro l
  induction l with
  | nil => intro st; rfl
  | cons x t ih => intro st; simpa [List.foldl_cons, h st x] using ih (f st x)

theorem foldl_rel {α β γ : Type} (R : β → γ → Prop) (f : β → α → β) (g : γ → α → γ)
    (h : ∀ b c x, R b c → R (f b x) (g c x)) :
    ∀ (l : List α) (b : β) (c : γ), R b c → R (l.foldl f b) (l.foldl g c) := by
  intro l
  induction l with
  | nil => intro b c hbc; exact hbc
  | cons x t ih => intro b c hbc; exact ih (f b x) (g c x) (h b c x hbc)

theorem stepDir_shift (fs : FS) (excl : List Str) (m0 : List Str) (st : St) (dir : Path) :
    stepDir fs excl (shiftManifest m0 st) dir = shiftManifest m0 (stepDir fs excl st dir) := by
  simp only [stepDir, shiftManifest]
  split <;> [rfl; split] <;> [split <;> rfl; rfl]

theorem stepOther_shift (fs : FS) (m0 : List Str) (st : St) (el : Path) :
    stepOther fs (shiftManifest m0 st) el = shiftManifest m0 (stepOther fs st el) := by
  simp only [stepOther, shiftManifest]
  split
  · rfl
  · split
    · rfl
    · split
      · simp [List.append_assoc]
      · split <;> [split <;> rfl; rfl]

theorem processPattern_shift (fs : FS) (excl : List Str) (m0 : List Str) (st : St)
    (inc : Str) :
    processPattern fs excl (shiftManifest m0 st) inc =
      shiftManifest m0 (processPattern fs excl st inc) := by
  simp only [processPattern]
  rw [foldl_hom (stepDir fs excl) (shiftManifest m0) (stepDir_shift fs excl m0),
    foldl_hom (stepOther fs) (shiftManifest m0) (stepOther_shift fs m0)]

theorem crawl_shift (fs : FS) (includes excludes ignores : List Str) (m0 : List Str) :
    crawl fs includes excludes ignores m0 =
      { crawl fs includes excludes ignores [] with
        manifest := m0 ++ (crawl fs includes excludes ignores []).manifest } := by
  simp only [crawl]
  have h0 : (⟨[], [], [], m0⟩ : St) = shiftManifest m0 ⟨[], [], [], []⟩ := by
    simp [shiftManifest]
  rw [h0, foldl_hom (processPattern fs (buildExcluded fs (excludes ++ ignores)))
    (shiftManifest m0)
    (processPattern_shift fs (buildExcluded fs (excludes ++ ignores)) m0)]
  rfl

/-- C7 amended: the crawl is a pure function of the tree and the
patterns, except that the data-file directive list accumulates on the
builder instance: a second run on an unchanged tree with unchanged
patterns reproduces the package and module results exactly, while the
directive list after the second run is the first run's list appended to
itself (the same directive set, with every directive duplicated). -/
theorem C7_amended (fs : FS) (includes excludes ignores : List Str) :
    (crawl fs includes excludes ignores
        (crawl fs includes excludes ignores []).manifest).packages =
        (crawl fs includes excludes ignores []).packages ∧
      (crawl fs includes excludes ignores
          (crawl fs includes excludes ignores []).manifest).modules =
        (crawl fs includes excludes ignores []).modules ∧
      (crawl fs includes excludes ignores
          (crawl fs includes excludes ignores []).manifest).manifest =
        (crawl fs includes excludes ignores []).manifest ++
          (crawl fs includes excludes ignores []).manifest := by
  rw [crawl_shift fs includes excludes ignores
    (crawl fs includes excludes ignores []).manifest]
  exact ⟨rfl, rfl, rfl⟩

/-! ### The crawl's control flow and manifest ignore the excluded names -/

theorem stepDir_flow (fs : FS) (e1 e2 : List Str) (st1 st2 : St) (dir : Path)
    (hc : st1.crawled = st2.crawled) (hm : st1.manifest = st2.manifest) :
    (stepDir fs e1 st1 dir).crawled = (stepDir fs e2 st2 dir).crawled ∧
      (stepDir fs e1 st1 dir).manifest = (stepDir fs e2 st2 dir).manifest := by
  obtain ⟨p1, q1, c1, m1⟩ := st1
  obtain ⟨p2, q2, c2, m2⟩ := st2
  cases hc
  cases hm
  simp only [stepDir]
  split_ifs <;> exact ⟨rfl, rfl⟩

theorem stepOther_flow (fs : FS) (st1 st2 : St) (el : Path)
    (hc : st1.crawled = st2.crawled) (hm : st1.manifest = st2.manifest) :
    (stepOther fs st1 el).crawled = (stepOther fs st2 el).crawled ∧
      (stepOther fs st1 el).manifest = (stepOther fs st2 el).manifest := by
  obtain ⟨p1, q1, c1, m1⟩ := st1
  obtain ⟨p2, q2, c2, m2⟩ := st2
  cases hc
  cases hm
  simp only [stepOther]
  split_ifs <;> exact ⟨rfl, rfl⟩

theorem processPattern_flow (fs : FS) (e1 e2 : List Str) (st1 st2 : St) (inc : Str)
    (hc : st1.crawled = st2.crawled) (hm : st1.manifest = st2.manifest) :
    (processPattern fs e1 st1 inc).crawled = (processPattern fs e2 st2 inc).crawled ∧
      (processPattern fs e1 st1 inc).manifest = (processPattern fs e2 st2 inc).manifest := by
  simp only [processPattern]
  refine foldl_rel
    (fun (a : St) (b : St) => a.crawled = b.crawled ∧ a.manifest = b.manifest)
    (stepOther fs) (stepOther fs) ?_ _ _ _
    (foldl_rel (fun (a : St) (b : St) => a.crawled = b.crawled ∧ a.manifest = b.manifest)
      (stepDir fs e1) (stepDir fs e2) ?_ _ _ _ ⟨hc, hm⟩)
  · intro b c x h
    exact stepOther_flow fs b c x h.1 h.2
  · intro b c x h
    exact stepDir_flow fs e1 e2 b c x h.1 h.2

/-- C10: exclude and ignore patterns never suppress data-file
directives: the accumulated data-file directive list of a crawl equals
the one produced with no exclude/ignore patterns at all (the excluded
names only ever filter the package and module lists). -/
theorem C10_manifest_ignores_excludes (fs : FS)
    (includes excludes ignores m0 : List Str) :
    (crawl fs includes excludes ignores m0).manifest =
      (crawl fs includes [] [] m0).manifest := by
  simp only [crawl]
  exact (foldl_rel (fun (a : St) (b : St) => a.crawled = b.crawled ∧ a.manifest = b.manifest)
    (processPattern fs (buildExcluded fs (excludes ++ ignores)))
    (processPattern fs (buildExcluded fs ([] ++ [])))
    (fun b c x h => processPattern_flow fs _ _ b c x h.1 h.2)
    includes _ _ ⟨rfl, rfl⟩).2

/-! ### The pattern-shape regex and the root-directory insertion -/

theorem splitsOn_mem (m : Str) (hm : m ≠ []) :
    ∀ (s a b : Str), (a, b) ∈ splitsOn m s ↔ s = a ++ m ++ b := by
  intro s
  induction s with
  | nil =>
    intro a b
    simp only [splitsOn, List.not_mem_nil, false_iff]
    intro h
    rcases List.append_eq_nil.mp h.symm with ⟨h1, _⟩
    exact hm (List.append_eq_nil.mp h1).2
  | cons c t ih =>
    intro a b
    simp only [splitsOn, List.mem_append, List.mem_map]
    constructor
    · rintro (hfirst | ⟨⟨a', b'⟩, hmem, heq⟩)
      · split at hfirst
        case isTrue hp =>
          simp only [List.mem_singleton, Prod.mk.injEq] at hfirst
          obtain ⟨ha, hb⟩ := hfirst
          obtain ⟨r, hr⟩ := List.isPrefixOf_iff_prefix.mp hp
          subst ha
          subst hb
          rw [← hr, List.drop_left, List.nil_append]
        case isFalse => simp at hfirst
      · simp only [Prod.mk.injEq] at heq
        obtain ⟨ha, hb⟩ := heq
        have ht : t = a' ++ m ++ b' := (ih a' b').mp hmem
        rw [← ha, ← hb, ht]
        simp
    · intro h
      match a with
      | [] =>
        left
        have hpre : c :: t = m ++ b := by simpa using h
        have hp : m.isPrefixOf (c :: t) = true :=
          List.isPrefixOf_iff_prefix.mpr ⟨b, hpre.symm⟩
        simp only [hp, if_true, List.mem_singleton, Prod.mk.injEq, true_and]
        rw [hpre, List.drop_left]
      | a0 :: a' =>
        right
        have hca : c = a0 ∧ t = a' ++ m ++ b := List.cons_eq_cons.mp (by simpa using h)
        refine ⟨(a', b), (ih a' b).mpr hca.2, ?_⟩
        rw [hca.1]

theorem suffixCore_iff (b : Str) : suffixCore b = true ↔ SuffixShape b := by
  match b with
  | [] => simp [suffixCore, SuffixShape]
  | c :: t =>
    simp only [suffixCore, SuffixShape, List.head?_cons, List.tail_cons, Bool.or_eq_true,
      Bool.and_eq_true, Option.some.injEq, decide_eq_true_eq, List.all_eq_true,
      List.isEmpty_iff, Bool.not_eq_true', List.isEmpty_eq_false, List.cons_ne_nil,
      false_or]
    constructor
    · rintro ⟨⟨hc, ht⟩, hall⟩
      exact ⟨t, by rw [hc], ht, hall⟩
    · rintro ⟨t', ht', hne, hall⟩
      have hct : c = '.' ∧ t = t' := List.cons_eq_cons.mp ht'
      refine ⟨⟨hct.1, ?_⟩, ?_⟩
      · rw [hct.2]
        exact hne
      · rw [hct.2]
        exact hall

theorem suffixOKb_iff (b : Str) : suffixOKb b = true ↔ SuffixShapeRe b := by
  simp only [suffixOKb, Bool.or_eq_true, Bool.and_eq_true, SuffixShapeRe]
  constructor
  · rintro (h | ⟨hl, hd⟩)
    · exact Or.inl ((suffixCore_iff b).mp h)
    · right
      have hl' : b.getLast? = some '\n' := by simpa using hl
      rcases List.eq_nil_or_concat b with rfl | ⟨L, x, hL⟩
      · simp at hl'
      · rw [List.concat_eq_append] at hL
        subst hL
        have hx : x = '\n' := by simpa [List.getLast?_concat] using hl'
        refine ⟨L, by rw [hx], ?_⟩
        rw [List.dropLast_concat] at hd
        exact (suffixCore_iff L).mp hd
  · rintro (h | ⟨b', rfl, h⟩)
    · exact Or.inl ((suffixCore_iff b).mpr h)
    · refine Or.inr ⟨by simp [List.getLast?_concat], ?_⟩
      rw [List.dropLast_concat]
      exact (suffixCore_iff b').mpr h

theorem validSplits_mem (p a b : Str) :
    (a, b) ∈ validSplits p ↔ PatShapeRe p a b := by
  rw [validSplits, List.mem_filter, splitsOn_mem (str "/**/*") (by decide) p a b]
  constructor
  · rintro ⟨hs, hpred⟩
    simp only [Bool.and_eq_true] at hpred
    obtain ⟨⟨h1, h2⟩, h3⟩ := hpred
    refine ⟨hs, ?_, ?_, (suffixOKb_iff b).mp h3⟩
    · intro h
      subst h
      simp at h1
    · intro c hc
      simpa using List.all_eq_true.mp h2 c hc
  · rintro ⟨hs, h1, h2, h3⟩
    refine ⟨hs, ?_⟩
    simp only [Bool.and_eq_true]
    refine ⟨⟨?_, List.all_eq_true.mpr fun c hc => by simpa using h2 c hc⟩,
      (suffixOKb_iff b).mpr h3⟩
    simpa using h1

/-- C9 counterexample: the pattern of `"src/**/*"` followed by one
newline is not of the claimed stem + recursive-wildcard + optional dot
suffix shape, yet the shape regex matches it (the end anchor matches just
before a single trailing newline), and the crawler inserts the stem
directory at the front of the directory list for it. -/
theorem C9_counterexample :
    (¬ ∃ a b, PatShape (str "src/**/*\n") a b) ∧
      rootOfPattern (str "src/**/*\n") = some (str "src") ∧
      dirsForPattern fsPkg (str "src/**/*\n") = [[str "src"]] := by
  refine ⟨?_, by decide, by decide⟩
  rintro ⟨a, b, hp, hne, hnl, hsuf⟩
  have hmem : (a, b) ∈ splitsOn (str "/**/*") (str "src/**/*\n") :=
    (splitsOn_mem (str "/**/*") (by decide) _ a b).mpr hp
  rw [show splitsOn (str "/**/*") (str "src/**/*\n") = [(str "src", str "\n")] from
    by decide] at hmem
  simp only [List.mem_singleton, Prod.mk.injEq] at hmem
  obtain ⟨ha, hb⟩ := hmem
  subst hb
  rcases hsuf with h | ⟨t, ht, _, _⟩
  · exact absurd h (by decide)
  · rw [show str "\n" = ['\n'] from rfl] at ht
    exact absurd (List.cons_eq_cons.mp ht).1 (by decide)

/-- C9 amended: for every include pattern, the crawler's directory list
gets the pattern's stem inserted at the front exactly when the pattern
has the shape the line-229 regex actually matches — stem +
recursive-wildcard tail + optional dot suffix, with up to one trailing
newline tolerated by the end anchor (the stem being the longest such);
patterns admitting no such decomposition get no insertion and keep
exactly the glob-matched directories. -/
theorem C9_root_insertion (fs : FS) (inc : Str) :
    (∀ a, rootOfPattern inc = some a →
        (∃ b, PatShapeRe inc a b) ∧
          dirsForPattern fs inc =
            splitSlash (stripSlash a) :: (glob fs inc).filter fun d => isDir fs d) ∧
      (rootOfPattern inc = none →
        (¬ ∃ a b, PatShapeRe inc a b) ∧
          dirsForPattern fs inc = (glob fs inc).filter fun d => isDir fs d) := by
  constructor
  · intro a ha
    constructor
    · obtain ⟨⟨a', b'⟩, hlast, heq⟩ := Option.map_eq_some'.mp ha
      have hmem := List.mem_of_mem_getLast? hlast
      cases heq
      exact ⟨b', (validSplits_mem inc a' b').mp hmem⟩
    · simp only [dirsForPattern, ha]
  · intro ha
    have h0 : (validSplits inc).getLast? = none := Option.map_eq_none'.mp ha
    have hnil : validSplits inc = [] := by simpa using h0
    constructor
    · rintro ⟨a, b, hshape⟩
      have := (validSplits_mem inc a b).mpr hshape
      rw [hnil] at this
      exact absurd this (List.not_mem_nil _)
    · simp only [dirsForPattern, ha]

/-! ### Classifier duplicates -/

theorem flatMap_filter_sublist {α β : Type} (q : α → Bool) (f g : α → List β) :
    ∀ l : List α, (∀ a ∈ l, List.Sublist (f a) (g a)) →
      List.Sublist ((l.filter q).flatMap f) (l.flatMap g) := by
  intro l
  induction l with
  | nil => intro _; simp
  | cons a t ih =>
    intro h
    rw [List.filter_cons, List.flatMap_cons]
    split
    · rw [List.flatMap_cons]
      exact (h a (List.mem_cons_self a t)).append
        (ih fun x hx => h x (List.mem_cons_of_mem a hx))
    · exact (ih fun x hx => h x (List.mem_cons_of_mem a hx)).trans
        (List.sublist_append_right _ _)

theorem compat_mem (pythons : List VSpec) (m : Nat) (v : Str)
    (h : v ∈ compatibleVersions pythons m) : v ∈ PYTHON_VERSIONS m := by
  simp only [compatibleVersions, List.mem_flatten, List.mem_map] at h
  obtain ⟨l, ⟨c, _, rfl⟩, hv⟩ := h
  exact (List.mem_filter.mp hv).1

/-- C5 amended: the classifier output for a single constraint contains no
duplicate tags, and each major-line tag appears at most once for every
constraint set; but a minor-release tag appears once per constraint that
admits it, so two overlapping constraints duplicate minor tags. -/
theorem C5_amended (c : VSpec) (pythons : List VSpec) :
    (classifiersVersions [c]).Nodup ∧
      (classifiersVersions pythons).count (str "Programming Language :: Python :: 2") ≤ 1 ∧
      (classifiersVersions pythons).count (str "Programming Language :: Python :: 3") ≤ 1 := by
  have e2 : (str "Programming Language :: Python :: " ++ natStr 2) =
      str "Programming Language :: Python :: 2" := by decide
  have e3 : (str "Programming Language :: Python :: " ++ natStr 3) =
      str "Programming Language :: Python :: 3" := by decide
  have key2 : ∀ v ∈ PYTHON_VERSIONS 2 ++ PYTHON_VERSIONS 3,
      ¬(str "Programming Language :: Python :: " ++ v =
        str "Programming Language :: Python :: 2") := by decide
  have key3 : ∀ v ∈ PYTHON_VERSIONS 2 ++ PYTHON_VERSIONS 3,
      ¬(str "Programming Language :: Python :: " ++ v =
        str "Programming Language :: Python :: 3") := by decide
  refine ⟨?_, ?_, ?_⟩
  · have hfull : (str "Programming Language :: Python" ::
        [2, 3].flatMap (fun m => (str "Programming Language :: Python :: " ++ natStr m) ::
          ((PYTHON_VERSIONS m).map (fun v =>
            str "Programming Language :: Python :: " ++ v)))).Nodup := by decide
    refine hfull.sublist ?_
    refine List.Sublist.cons₂ _ (flatMap_filter_sublist _ _ _ [2, 3] ?_)
    intro m _
    refine List.Sublist.cons₂ _ (List.Sublist.map _ ?_)
    have hc : compatibleVersions [c] m =
        (PYTHON_VERSIONS m).filter fun v => specContains c (coerce v) := by
      simp [compatibleVersions]
    rw [hc]
    exact List.filter_sublist _
  · have cnt2 : List.count (str "Programming Language :: Python :: 2")
        ((compatibleVersions pythons 2).map fun v =>
          str "Programming Language :: Python :: " ++ v) = 0 := by
      refine List.count_eq_zero.mpr fun hmem => ?_
      obtain ⟨v, hv, hveq⟩ := List.mem_map.mp hmem
      exact key2 v (List.mem_append.mpr (Or.inl (compat_mem pythons 2 v hv))) hveq
    have cnt3 : List.count (str "Programming Language :: Python :: 2")
        ((compatibleVersions pythons 3).map fun v =>
          str "Programming Language :: Python :: " ++ v) = 0 := by
      refine List.count_eq_zero.mpr fun hmem => ?_
      obtain ⟨v, hv, hveq⟩ := List.mem_map.mp hmem
      exact key2 v (List.mem_append.mpr (Or.inr (compat_mem pythons 3 v hv))) hveq
    have ne32 : ¬(str "Programming Language :: Python :: 3" =
        str "Programming Language :: Python :: 2") := by decide
    have neg2 : ¬(str "Programming Language :: Python" =
        str "Programming Language :: Python :: 2") := by decide
    simp only [classifiersVersions]
    by_cases h2 : (compatibleVersions pythons 2).isEmpty = true <;>
      by_cases h3 : (compatibleVersions pythons 3).isEmpty = true <;>
      simp [h2, h3, e2, e3, List.count_append, List.count_cons, cnt2, cnt3, ne32, neg2]
  · have cnt2 : List.count (str "Programming Language :: Python :: 3")
        ((compatibleVersions pythons 2).map fun v =>
          str "Programming Language :: Python :: " ++ v) = 0 := by
      refine List.count_eq_zero.mpr fun hmem => ?_
      obtain ⟨v, hv, hveq⟩ := List.mem_map.mp hmem
      exact key3 v (List.mem_append.mpr (Or.inl (compat_mem pythons 2 v hv))) hveq
    have cnt3 : List.count (str "Programming Language :: Python :: 3")
        ((compatibleVersions pythons 3).map fun v =>
          str "Programming Language :: Python :: " ++ v) = 0 := by
      refine List.count_eq_zero.mpr fun hmem => ?_
      obtain ⟨v, hv, hveq⟩ := List.mem_map.mp hmem
      exact key3 v (List.mem_append.mpr (Or.inr (compat_mem pythons 3 v hv))) hveq
    have ne23 : ¬(str "Programming Language :: Python :: 2" =
        str "Programming Language :: Python :: 3") := by decide
    have neg3 : ¬(str "Programming Language :: Python" =
        str "Programming Language :: Python :: 3") := by decide
    simp only [classifiersVersions]
    by_cases h2 : (compatibleVersions pythons 2).isEmpty = true <;>
      by_cases h3 : (compatibleVersions pythons 3).isEmpty = true <;>
      simp [h2, h3, e2, e3, List.count_append, List.count_cons, cnt2, cnt3, ne23, neg3]

/-! ### Build orchestration: cleanup and error propagation -/

theorem mem_writeFile_iff (n x : Str) (l : List Str) :
    x ∈ writeFile n l ↔ x = n ∨ x ∈ l := by
  simp only [writeFile]
  split
  case isTrue h =>
    constructor
    · exact fun hx => Or.inr hx
    · rintro (rfl | hx)
      · exact List.elem_iff.mp h
      · exact hx
  case isFalse h => simp [List.mem_cons]

theorem nodup_writeFile (n : Str) (l : List Str) (h : l.Nodup) :
    (writeFile n l).Nodup := by
  simp only [writeFile]
  split
  case isTrue => exact h
  case isFalse hn => exact List.Nodup.cons (fun hm => hn (List.elem_iff.mpr hm)) h

theorem C8_cleanup_on_failure (w : BuildWorld) (hnd : w.files.Nodup)
    (hs : w.sdistOk = false) (hw : w.wheelRun = false) :
    (build w).1 = some BuildErr.sdistFailed ∧
      setupName ∉ (build w).2.files ∧
      manifestName ∉ (build w).2.files ∧
      (w.hasMarkdownReadme = true → readmeName ∉ w.files →
        readmeName ∉ (build w).2.files) ∧
      (build w).2.wheelRun = false := by
  have hms : ¬(manifestName = setupName) := by decide
  have hrs : ¬(readmeName = setupName) := by decide
  have hrm : ¬(readmeName = manifestName) := by decide
  set f1 := writeFile manifestName (writeFile setupName w.files) with hf1
  set rc := w.hasMarkdownReadme && !f1.contains readmeName with hrc
  have hf1nd : f1.Nodup := nodup_writeFile _ _ (nodup_writeFile _ _ hnd)
  have hsetup1 : setupName ∈ f1 :=
    (mem_writeFile_iff _ _ _).mpr (Or.inr ((mem_writeFile_iff _ _ _).mpr (Or.inl rfl)))
  have hmani1 : manifestName ∈ f1 := (mem_writeFile_iff _ _ _).mpr (Or.inl rfl)
  by_cases hrcb : rc = true
  · -- a converted readme is materialized
    have hbuild : build w =
        (some BuildErr.sdistFailed,
          { w with files :=
              ((((writeFile readmeName f1).erase setupName).erase
                manifestName).erase readmeName) }) := by
      have hf2nd : (writeFile readmeName f1).Nodup := nodup_writeFile _ _ hf1nd
      have hsetup2 : setupName ∈ writeFile readmeName f1 :=
        (mem_writeFile_iff _ _ _).mpr (Or.inr hsetup1)
      have hmani2 : manifestName ∈ ((writeFile readmeName f1).erase setupName) :=
        (List.mem_erase_of_ne hms).mpr ((mem_writeFile_iff _ _ _).mpr (Or.inr hmani1))
      have hread2 : readmeName ∈
          (((writeFile readmeName f1).erase setupName).erase manifestName) :=
        (List.mem_erase_of_ne hrm).mpr ((List.mem_erase_of_ne hrs).mpr
          ((mem_writeFile_iff _ _ _).mpr (Or.inl rfl)))
      simp only [build, ← hf1, ← hrc, hrcb, if_true, cleanupStep, unlinkF,
        List.elem_iff.mpr hsetup2, if_pos, List.elem_iff.mpr hmani2,
        List.elem_iff.mpr hread2, hs, Bool.false_eq_true, if_false]
    rw [hbuild]
    have hnd3 : (((writeFile readmeName f1).erase setupName).erase manifestName).Nodup :=
      ((nodup_writeFile _ _ hf1nd).erase _).erase _
    refine ⟨rfl, ?_, ?_, ?_, hw⟩
    · intro hmem
      exact (nodup_writeFile _ _ hf1nd).not_mem_erase
        (List.mem_of_mem_erase (List.mem_of_mem_erase hmem))
    · intro hmem
      exact ((nodup_writeFile _ _ hf1nd).erase _).not_mem_erase
        (List.mem_of_mem_erase hmem)
    · intro _ _ hmem
      exact hnd3.not_mem_erase hmem
  · -- no converted readme
    have hbuild : build w =
        (some BuildErr.sdistFailed,
          { w with files := (f1.erase setupName).erase manifestName }) := by
      have hmani2 : manifestName ∈ (f1.erase setupName) :=
        (List.mem_erase_of_ne hms).mpr hmani1
      simp only [build, ← hf1, ← hrc, hrcb, if_false, cleanupStep, unlinkF,
        List.elem_iff.mpr hsetup1, if_pos, List.elem_iff.mpr hmani2, hs,
        Bool.false_eq_true, if_false]
    rw [hbuild]
    refine ⟨rfl, ?_, ?_, ?_, hw⟩
    · intro hmem
      exact hf1nd.not_mem_erase (List.mem_of_mem_erase hmem)
    · intro hmem
      exact (hf1nd.erase _).not_mem_erase hmem
    · intro hmd hnin
      exfalso
      apply hrcb
      rw [hrc, hmd]
      have : ¬(readmeName ∈ f1) := by
        intro hmem
        rcases (mem_writeFile_iff _ _ _).mp hmem with h | hmem1
        · exact hrm h
        · rcases (mem_writeFile_iff _ _ _).mp hmem1 with h | hmem2
          · exact hrs h
          · exact hnin hmem2
      simp [List.elem_iff, this]

theorem C8_cleanup_on_failure_witness :
    (build ⟨[], true, false, false⟩).1 = some BuildErr.sdistFailed ∧
      setupName ∉ (build ⟨[], true, false, false⟩).2.files ∧
      manifestName ∉ (build ⟨[], true, false, false⟩).2.files ∧
      ((⟨[], true, false, false⟩ : BuildWorld).hasMarkdownReadme = true →
        readmeName ∉ (⟨[], true, false, false⟩ : BuildWorld).files →
        readmeName ∉ (build ⟨[], true, false, false⟩).2.files) ∧
      (build ⟨[], true, false, false⟩).2.wheelRun = false :=
  C8_cleanup_on_failure ⟨[], true, false, false⟩ (by simp) rfl rfl

theorem C9_root_insertion_witness :
    (∃ b, PatShapeRe (str "src/**/*.py") (str "src") b) ∧
      dirsForPattern fsPkg (str "src/**/*.py") =
        splitSlash (stripSlash (str "src")) ::
          (glob fsPkg (str "src/**/*.py")).filter fun d => isDir fsPkg d :=
  (C9_root_insertion fsPkg (str "src/**/*.py")).1 (str "src") (by decide)

/-! ### Paths, globs and the excluded-name set -/

end Poet